import Mathlib

/-
  Verification development for the Travel Receipt Parser server
  (Express backend: extraction pipeline, decoder, validator, flight
  post-processing heuristics, evaluation recorder, HTTP handlers).

  Strings are modelled as `List Char`; JavaScript string indices are
  `Nat` positions into those lists.  JavaScript builtins used by the
  code (String.prototype.indexOf / slice / toLowerCase / trim, regex
  replaces, JSON.parse) are given explicit models below; JSON.parse is
  treated as an external capability and passed in as a parameter where
  the code calls it.
-/

set_option maxHeartbeats 1000000

-- ===================================================================
-- Basic characters (written via code points so literals stay plain)
-- ===================================================================

/-- Opening curly brace character. -/
def lbrace : Char := Char.ofNat 123

/-- Closing curly brace character. -/
def rbrace : Char := Char.ofNat 125

/-- Backtick character (markdown fences). -/
def backtick : Char := Char.ofNat 96

/-- Apostrophe character. -/
def apostChar : Char := Char.ofNat 39

/-- Hyphen character. -/
def hyphenChar : Char := Char.ofNat 45

/-- Full stop character. -/
def dotChar : Char := Char.ofNat 46

/-- Space character. -/
def spaceChar : Char := Char.ofNat 32

/-- Model of the JavaScript regex class backslash-s and of the set of
characters removed by String.prototype.trim (the common members:
TAB, LF, VT, FF, CR, SPACE, NBSP, LS, PS, BOM). -/
def isJsWs (c : Char) : Bool :=
  [9, 10, 11, 12, 13, 32, 160, 8232, 8233, 65279].contains c.toNat

/-- Model of the JavaScript regex class backslash-w: ASCII letters,
digits and underscore. -/
def isWordChar (c : Char) : Bool :=
  decide ((48 ≤ c.toNat ∧ c.toNat ≤ 57) ∨ (65 ≤ c.toNat ∧ c.toNat ≤ 90) ∨
          (97 ≤ c.toNat ∧ c.toNat ≤ 122) ∨ c.toNat = 95)

/-- ASCII-only lower-casing, as used by case-insensitive regex matching
of ASCII patterns. -/
def lowerAscii (c : Char) : Char :=
  if c.toNat ≥ 65 ∧ c.toNat ≤ 90 then Char.ofNat (c.toNat + 32) else c

/-- Model of String.prototype.toLowerCase restricted to Basic Latin and
Latin-1 (the ranges the parsed documents and city names live in); other
characters are returned unchanged. -/
def jsCharLower (c : Char) : Char :=
  if c.toNat ≥ 65 ∧ c.toNat ≤ 90 then Char.ofNat (c.toNat + 32)
  else if c.toNat ≥ 192 ∧ c.toNat ≤ 222 ∧ c.toNat ≠ 215 then Char.ofNat (c.toNat + 32)
  else c

/-- Lower-case a whole string (list of characters). -/
def jsLowerStr (s : List Char) : List Char := s.map jsCharLower

/-- Model of String.prototype.toUpperCase restricted to Basic Latin and
Latin-1: sharp s expands to SS, y-diaeresis maps to U+0178, other
Latin-1 lower-case letters lose 0x20; everything else is unchanged. -/
def jsCharUpper (c : Char) : List Char :=
  if c.toNat ≥ 97 ∧ c.toNat ≤ 122 then [Char.ofNat (c.toNat - 32)]
  else if c.toNat = 223 then [Char.ofNat 83, Char.ofNat 83]
  else if c.toNat ≥ 224 ∧ c.toNat ≤ 254 ∧ c.toNat ≠ 247 then [Char.ofNat (c.toNat - 32)]
  else if c.toNat = 255 then [Char.ofNat 376]
  else [c]

/-- Upper-case a whole string. -/
def jsUpperStr (s : List Char) : List Char := s.flatMap jsCharUpper

-- ===================================================================
-- String search: model of String.prototype.indexOf(needle, from)
-- ===================================================================

/-- The needle `p` occurs in `t` at position `i` (all of `p` matches,
so `i + p.length` must not exceed `t.length`). -/
def occursAt (t p : List Char) (i : Nat) : Bool :=
  decide ((t.drop i).take p.length = p)

/-- The ascending list of candidate positions `[s, s+1, ..., s+n-1]`. -/
def natSeq (s : Nat) : Nat → List Nat
  | 0 => []
  | n + 1 => s :: natSeq (s + 1) n

/-- Model of `t.indexOf(p, i)` for a nonempty needle: the least
position `j ≥ i` at which `p` occurs in `t`, if any (`none` models the
JavaScript result -1). -/
def indexOfFrom (t p : List Char) (i : Nat) : Option Nat :=
  (natSeq i (t.length + 1 - i)).find? (occursAt t p)

-- ===================================================================
-- JSON values and objects (shapes produced by JSON.parse)
-- ===================================================================

/-- JSON values.  Numeric payloads are opaque to every operation the
claims concern, so they are carried as integers. -/
inductive JsonVal where
  | null : JsonVal
  | bool (b : Bool) : JsonVal
  | num (n : Int) : JsonVal
  | str (s : List Char) : JsonVal
  | arr (xs : List JsonVal) : JsonVal
  | obj (o : List (List Char × JsonVal)) : JsonVal

/-- A JSON object: association list of key/value pairs in property
order (JSON.parse yields unique keys). -/
abbrev JObj := List (List Char × JsonVal)

/-- Property read `o[k]`: value of the first binding of `k`, if any. -/
def getVal : JObj → List Char → Option JsonVal
  | [], _ => none
  | (k, v) :: rest, key => if k = key then some v else getVal rest key

/-- Model of the JavaScript `k in o` test. -/
def hasKey (o : JObj) (k : List Char) : Bool :=
  (getVal o k).isSome

/-- Property write `o[k] = v`: replace the first binding of `k` in
place, or append a new binding when `k` is absent. -/
def setKey : JObj → List Char → JsonVal → JObj
  | [], k, v => [(k, v)]
  | (k', v') :: rest, k, v =>
      if k' = k then (k, v) :: rest else (k', v') :: setKey rest k v

/-- Value of the object's "type" discriminator, when the value is an
object at all (models `obj?.type` / `obj.type`). -/
def tagOf (v : JsonVal) : Option JsonVal :=
  match v with
  | .obj o => getVal o ("type".toList)
  | _ => none

/-- The "type" tag as a string, when it is one. -/
def tagStr (v : JsonVal) : Option (List Char) :=
  match tagOf v with
  | some (.str s) => some s
  | _ => none

-- ===================================================================
-- Required-key schemas (source: ensureRequiredKeys / assertValidOutput)
-- ===================================================================

/-- The key "type". -/
def typeK : List Char := "type".toList

/-- The tag value "flight". -/
def flightTagChars : List Char := "flight".toList

/-- The tag value "hotel". -/
def hotelTagChars : List Char := "hotel".toList

/-- Required keys of a flight record, in source order. -/
def flightKeys : List (List Char) :=
  ["passengerName".toList, "bookingReference".toList, "ticketNumber".toList,
   "tripType".toList, "overallFrom".toList, "overallTo".toList,
   "departureDate".toList, "returnDate".toList, "currency".toList,
   "totalPrice".toList]

/-- Required keys of a hotel record, in source order. -/
def hotelKeys : List (List Char) :=
  ["guestName".toList, "hotelName".toList, "receiptNumber".toList,
   "hotelCity".toList, "checkInDate".toList, "checkOutDate".toList,
   "currency".toList, "totalPrice".toList]

/-- One step of the completion pass: add `k` with value null when it is
missing (source: the loop body of ensureRequiredKeys). -/
def addMissing (o : JObj) (k : List Char) : JObj :=
  if hasKey o k then o else o ++ [(k, JsonVal.null)]

/-- Run the completion pass over a key list. -/
def ensureKeysList (o : JObj) (ks : List (List Char)) : JObj :=
  ks.foldl addMissing o

/-- Does the value carry the given string under its "type" key? -/
def tagIs (v : JsonVal) (s : List Char) : Bool :=
  match tagOf v with
  | some (.str t) => decide (t = s)
  | _ => false

/-- Model of ensureRequiredKeys: non-objects (and null) are returned
unchanged; an object tagged flight or hotel gets each missing required
key of its tag inserted as null, in key-list order. -/
def ensureRequiredKeys (v : JsonVal) : JsonVal :=
  match v with
  | .obj o =>
      if tagIs (.obj o) flightTagChars then .obj (ensureKeysList o flightKeys)
      else if tagIs (.obj o) hotelTagChars then .obj (ensureKeysList o hotelKeys)
      else .obj o
  | v => v

/-- Validation errors thrown by assertValidOutput; the message text of
the thrown Error carries the record kind and the offending key. -/
inductive VErr where
  | invalidType (v : JsonVal) : VErr
  | missingKey (kind : List Char) (k : List Char) : VErr

/-- Check that every required key is present (source: the two `for
(const k of required)` loops of assertValidOutput). -/
def checkKeys (o : JObj) (kind : List Char) : List (List Char) → Except VErr Unit
  | [] => .ok ()
  | k :: ks => if hasKey o k then checkKeys o kind ks else .error (.missingKey kind k)

/-- Model of assertValidOutput: a value whose "type" tag is neither
"flight" nor "hotel" throws; otherwise every required key of the tag
must be present (values may be null, never missing). -/
def assertValidOutput (v : JsonVal) : Except VErr Unit :=
  match v with
  | .obj o =>
      if tagIs (.obj o) flightTagChars then checkKeys o flightTagChars flightKeys
      else if tagIs (.obj o) hotelTagChars then checkKeys o hotelTagChars hotelKeys
      else .error (.invalidType (.obj o))
  | v => .error (.invalidType v)

-- ===================================================================
-- Name / ticket cleanup (source: cleanNameAllCaps, cleanTicketNumber)
-- ===================================================================

/-- Drop leading whitespace. -/
def dropWs (s : List Char) : List Char := s.dropWhile isJsWs

/-- Model of String.prototype.trim. -/
def trimWs (s : List Char) : List Char :=
  ((s.dropWhile isJsWs).reverse.dropWhile isJsWs).reverse

/-- Model of `.replace(bsl s +, " ")`: each maximal whitespace run
becomes one space. -/
def collapseWs : List Char → List Char
  | [] => []
  | [c] => [if isJsWs c then spaceChar else c]
  | c1 :: c2 :: rest =>
      if isJsWs c1 ∧ isJsWs c2 then collapseWs (c2 :: rest)
      else (if isJsWs c1 then spaceChar else c1) :: collapseWs (c2 :: rest)

/-- The honorific alternatives of the strip regex, lower-cased, in the
source's alternation order. -/
def honorifics : List (List Char) :=
  ["mr".toList, "mrs".toList, "ms".toList, "miss".toList, "dr".toList, "prof".toList]

/-- Does the (lower-cased) token match case-insensitively at the head
of `s`, with a word boundary after it? -/
def tokenAt (tok s : List Char) : Bool :=
  decide ((s.take tok.length).map lowerAscii = tok) &&
    (match (s.drop tok.length).head? with
     | none => true
     | some c => !isWordChar c)

/-- Try to match one honorific alternative (plus an optional trailing
period) at the head of `s`; returns the number of characters consumed.
The alternation is ordered, as in the regex. -/
def tryHonorific (s : List Char) : Option Nat :=
  match honorifics.find? (fun tok => tokenAt tok s) with
  | none => none
  | some tok =>
      match (s.drop tok.length).head? with
      | some c => if c = dotChar then some (tok.length + 1) else some tok.length
      | none => some tok.length

/-- Is there a word boundary between the previous character and a word
character here? -/
def boundaryBefore : Option Char → Bool
  | none => true
  | some c => !isWordChar c

/-- Global replace of the honorific regex by the empty string: scan
left to right; at a word boundary try the alternatives; on a match drop
the matched text and continue after it, else keep the character.  Fuel
bounds the recursion; one character is always consumed, so the string's
length is enough fuel. -/
def stripHonLoop : Nat → Option Char → List Char → List Char
  | 0, _, s => s
  | _, _, [] => []
  | fuel + 1, prev, c :: rest =>
      if boundaryBefore prev then
        match tryHonorific (c :: rest) with
        | some n => stripHonLoop fuel ((c :: rest)[n - 1]?) ((c :: rest).drop n)
        | none => c :: stripHonLoop fuel (some c) rest
      else c :: stripHonLoop fuel (some c) rest

/-- Strip honorific tokens (first replace of cleanNameAllCaps). -/
def stripHonorifics (s : List Char) : List Char :=
  stripHonLoop s.length none s

/-- Characters kept by the second replace of cleanNameAllCaps: ASCII
letters, the Latin-1 range U+00C0 to U+00FF, whitespace, apostrophe and
hyphen.  Everything else becomes a space. -/
def isNameKept (c : Char) : Bool :=
  decide ((65 ≤ c.toNat ∧ c.toNat ≤ 90) ∨ (97 ≤ c.toNat ∧ c.toNat ≤ 122) ∨
          (192 ≤ c.toNat ∧ c.toNat ≤ 255)) || isJsWs c ||
    c = apostChar || c = hyphenChar

/-- A punctuation-like character in the sense of the testable
properties: below U+00C0, not a digit, not an ASCII letter, not
whitespace, and (to separate the claim from the kept set) neither a
hyphen nor an apostrophe. -/
def isPunctChar (c : Char) : Bool :=
  decide (c.toNat < 192 ∧ ¬(48 ≤ c.toNat ∧ c.toNat ≤ 57) ∧
          ¬(65 ≤ c.toNat ∧ c.toNat ≤ 90) ∧ ¬(97 ≤ c.toNat ∧ c.toNat ≤ 122) ∧
          isJsWs c = false ∧ c ≠ hyphenChar ∧ c ≠ apostChar)

/-- Second replace of cleanNameAllCaps. -/
def filterNameChars (s : List Char) : List Char :=
  s.map (fun c => if isNameKept c then c else spaceChar)

/-- Model of cleanNameAllCaps.  The argument is the raw property value
(absent = none); falsy or non-string values yield null, as does a value
that is reduced to the empty string by the cleanup. -/
def cleanNameAllCaps (v : Option JsonVal) : Option (List Char) :=
  match v with
  | some (.str s) =>
      if s = [] then none
      else
        let stripped := trimWs (collapseWs (filterNameChars (stripHonorifics s)))
        if stripped = [] then none else some (jsUpperStr stripped)
  | _ => none

/-- Characters kept by cleanTicketNumber: digits and whitespace. -/
def isTicketKept (c : Char) : Bool :=
  c.isDigit || isJsWs c

/-- Model of cleanTicketNumber: keep digits and whitespace, collapse
whitespace, trim; falsy, non-string or emptied values yield null. -/
def cleanTicketNumber (v : Option JsonVal) : Option (List Char) :=
  match v with
  | some (.str s) =>
      if s = [] then none
      else
        let digits := trimWs (collapseWs (s.map (fun c => if isTicketKept c then c else spaceChar)))
        if digits = [] then none else some digits
  | _ => none

-- ===================================================================
-- Markdown fence stripping and first-JSON-object extraction
-- (source: stripCodeFences, extractFirstJSONObject)
-- ===================================================================

/-- The seven-character pattern three-backticks-then-json, lower-cased. -/
def fenceJsonPat : List Char := [backtick, backtick, backtick] ++ "json".toList

/-- The three-backtick fence. -/
def fencePat : List Char := [backtick, backtick, backtick]

/-- Does the case-insensitive fence-json pattern match at the head? -/
def fenceJsonAt (s : List Char) : Bool :=
  decide ((s.take 7).map lowerAscii = fenceJsonPat)

/-- First replace of stripCodeFences: remove every occurrence of the
fence-json pattern together with the whitespace run after it. -/
def stripFencesJson : Nat → List Char → List Char
  | 0, s => s
  | _, [] => []
  | fuel + 1, c :: rest =>
      if fenceJsonAt (c :: rest) then
        stripFencesJson fuel (dropWs ((c :: rest).drop 7))
      else c :: stripFencesJson fuel rest

/-- Does the plain three-backtick fence match at the head? -/
def fenceAt (s : List Char) : Bool :=
  decide (s.take 3 = fencePat)

/-- Second replace of stripCodeFences: remove every plain fence. -/
def stripFences3 : Nat → List Char → List Char
  | 0, s => s
  | _, [] => []
  | fuel + 1, c :: rest =>
      if fenceAt (c :: rest) then
        stripFences3 fuel ((c :: rest).drop 3)
      else c :: stripFences3 fuel rest

/-- Model of stripCodeFences: strip fence-json markers (and trailing
whitespace), then plain fences, then trim. -/
def stripCodeFences (raw : List Char) : List Char :=
  let s1 := stripFencesJson raw.length raw
  trimWs (stripFences3 s1.length s1)

/-- Depth contribution of one character in the brace scan. -/
def braceDelta (c : Char) : Int :=
  if c = lbrace then 1 else if c = rbrace then -1 else 0

/-- Sum of brace deltas over a string. -/
def braceSum (l : List Char) : Int :=
  (l.map braceDelta).sum

/-- The brace-depth scan of extractFirstJSONObject: walk the suffix
starting at the first opening brace, keeping the running depth; return
the absolute index at which the depth first returns to zero. -/
def braceScan : List Char → Int → Nat → Option Nat
  | [], _, _ => none
  | c :: rest, depth, i =>
      let depth' := depth + braceDelta c
      if depth' = 0 then some i else braceScan rest depth' (i + 1)

/-- Model of extractFirstJSONObject: strip fences, find the first
opening brace, scan to the position where the depth returns to zero,
and slice out that substring; null when there is no opening brace or
the scan exhausts the string. -/
def extractFirstJSONObject (raw : List Char) : Option (List Char) :=
  let s := stripCodeFences raw
  match indexOfFrom s [lbrace] 0 with
  | none => none
  | some start =>
      match braceScan (s.drop start) 0 start with
      | some i => some ((s.take (i + 1)).drop start)
      | none => none

/-- Error outcomes of the response decoder (DecodeError in the spec's
taxonomy).  The source messages carry a slice of the offending text. -/
inductive DecErr where
  | noObject (raw : List Char) : DecErr
  | parseFailed (extracted : List Char) : DecErr

/-- Model of the decode tail of callLLM (after the provider transport):
JSON.parse is an external builtin, passed in as `parse`.  First try a
direct parse of the fence-stripped response; on failure extract the
first balanced JSON object and parse that; fail when no object is found
or the second parse also fails. -/
def decodeModelOutput (parse : List Char → Option JsonVal) (raw : List Char) :
    Except DecErr JsonVal :=
  match parse (stripCodeFences raw) with
  | some v => .ok v
  | none =>
      match extractFirstJSONObject raw with
      | none => .error (.noObject raw)
      | some s =>
          match parse s with
          | some v => .ok v
          | none => .error (.parseFailed s)

-- ===================================================================
-- Flight post-processing (source: postProcessFlight)
-- ===================================================================

/-- Field keys used by postProcessFlight. -/
def passengerNameK : List Char := "passengerName".toList

/-- The ticketNumber key. -/
def ticketNumberK : List Char := "ticketNumber".toList

/-- The tripType key. -/
def tripTypeK : List Char := "tripType".toList

/-- The overallFrom key. -/
def overallFromK : List Char := "overallFrom".toList

/-- The overallTo key. -/
def overallToK : List Char := "overallTo".toList

/-- The returnDate key. -/
def returnDateK : List Char := "returnDate".toList

/-- The tripType value "one_way". -/
def oneWayChars : List Char := "one_way".toList

/-- The tripType value "round_trip". -/
def roundTripChars : List Char := "round_trip".toList

/-- A cleanup result written back into the record: null or a string. -/
def optToJson : Option (List Char) → JsonVal
  | none => .null
  | some s => .str s

/-- Model of the JavaScript coercion `(x || "")` applied before
`.toLowerCase()`: absent and falsy values give the empty string, a
string gives itself, and a truthy non-string makes the method call
throw a TypeError (modelled as none). -/
def jsStrCoerce : Option JsonVal → Option (List Char)
  | none => some []
  | some .null => some []
  | some (.str s) => some s
  | some (.bool b) => if b then none else some []
  | some (.num n) => if n = 0 then some [] else none
  | some (.arr _) => none
  | some (.obj _) => none

/-- Repetition check at an origin occurrence `c`: the destination
string reappears at or after `c` within 400 characters (source:
`nextB !== -1 && (nextB - cursor) < 400`). -/
def isRepAt (t b : List Char) (c : Nat) : Bool :=
  match indexOfFrom t b c with
  | some q => decide (q - c < 400)
  | none => false

/-- Plausibility check at an origin occurrence `c`: the window from 50
characters before to 100 characters after contains a digit (source:
`/\d/.test(t.slice(Math.max(0, cursor - 50), cursor + 100))`). -/
def hasDigitNear (t : List Char) (c : Nat) : Bool :=
  ((t.take (c + 100)).drop (c - 50)).any Char.isDigit

/-- A position at which the return-leg scan would stop: the origin
occurs there, the repetition check does not fire, and the digit window
check passes. -/
def passesChecks (t a b : List Char) (c : Nat) : Bool :=
  occursAt t a c && !isRepAt t b c && hasDigitNear t c

/-- The while loop of postProcessFlight: repeatedly find the next
occurrence of the origin at or after the cursor; stop at the first one
passing both checks, else advance just past it.  Fuel bounds the
recursion (`t.length + 1` is always enough, since occurrences of a
nonempty needle lie below `t.length`). -/
def scanReturnLeg (t a b : List Char) : Nat → Nat → Option Nat
  | 0, _ => none
  | fuel + 1, cursor =>
      match indexOfFrom t a cursor with
      | none => none
      | some c =>
          if !isRepAt t b c && hasDigitNear t c then some c
          else scanReturnLeg t a b fuel (c + 1)

/-- The three exits of the trip-classification part of
postProcessFlight. -/
inductive TripOutcome where
  | emptyCity : TripOutcome
  | roundTrip : TripOutcome
  | oneWayForced : TripOutcome

/-- Trip classification over the lower-cased text and city strings:
empty city strings exit early (returnDate untouched); otherwise the
forward leg is located and the return-leg scan decides between
round-trip (returnDate retained) and forced one-way (returnDate
nulled). -/
def classifyTrip (t a b : List Char) : TripOutcome :=
  if a = [] ∨ b = [] then .emptyCity
  else
    let idxA := indexOfFrom t a 0
    let idxB := indexOfFrom t b (match idxA with | some i => i | none => 0)
    match idxA, idxB with
    | some _, some ib =>
        match scanReturnLeg t a b (t.length + 1) ib with
        | some _ => .roundTrip
        | none => .oneWayForced
    | _, _ => .oneWayForced

/-- Model of postProcessFlight.  The record is copied, passengerName
and ticketNumber are cleaned, tripType defaults to "one_way", and the
classification decides the exit taken.  The result is none exactly when
the JavaScript code would throw (a truthy non-string overallFrom /
overallTo makes `.toLowerCase()` throw). -/
def postProcessFlight (o : JObj) (originalText : List Char) : Option JObj :=
  let out1 := setKey o passengerNameK (optToJson (cleanNameAllCaps (getVal o passengerNameK)))
  let out2 := setKey out1 ticketNumberK (optToJson (cleanTicketNumber (getVal out1 ticketNumberK)))
  let t := jsLowerStr originalText
  match jsStrCoerce (getVal out2 overallFromK), jsStrCoerce (getVal out2 overallToK) with
  | some a0, some b0 =>
      let out3 := setKey out2 tripTypeK (.str oneWayChars)
      match classifyTrip t (jsLowerStr a0) (jsLowerStr b0) with
      | .emptyCity => some out3
      | .roundTrip => some (setKey out3 tripTypeK (.str roundTripChars))
      | .oneWayForced => some (setKey out3 returnDateK .null)
  | _, _ => none

/-- The lower-cased coerced overallFrom of a record, as the trip
classifier sees it. -/
def originLower (o : JObj) : Option (List Char) :=
  (jsStrCoerce (getVal o overallFromK)).map jsLowerStr

/-- The lower-cased coerced overallTo of a record. -/
def destLower (o : JObj) : Option (List Char) :=
  (jsStrCoerce (getVal o overallToK)).map jsLowerStr

-- ===================================================================
-- Extraction pipeline and HTTP handlers
-- (source: app.post "/api/extract" and "/api/extract-file")
-- ===================================================================

/-- Render a validation error to the thrown Error's message. -/
def vErrMsg : VErr → List Char
  | .invalidType _ => "Model output missing/invalid type".toList
  | .missingKey kind k => kind ++ " output missing key ".toList ++ k

/-- Message of the TypeError thrown by postProcessFlight on a truthy
non-string city value. -/
def typeErrChars : List Char := "toLowerCase is not a function".toList

/-- Run postProcessFlight when the validated value is tagged flight
(source: `if (data.type === "flight") data = postProcessFlight(...)`). -/
def runPostIfFlight (v : JsonVal) (text : List Char) : Except (List Char) JsonVal :=
  match v with
  | .obj o =>
      if tagIs (.obj o) flightTagChars then
        match postProcessFlight o text with
        | some o2 => .ok (.obj o2)
        | none => .error typeErrChars
      else .ok (.obj o)
  | v => .ok v

/-- The try-block body shared by both endpoints after the input checks:
decode outcome of callLLM (given from outside: provider plus decoder),
completion, validation, flight post-processing, completion and
validation again.  Errors carry the thrown message. -/
def runPipeline (llm : Except (List Char) JsonVal) (inputText : List Char) :
    Except (List Char) JsonVal :=
  match llm with
  | .error e => .error e
  | .ok v =>
      let v1 := ensureRequiredKeys v
      match assertValidOutput v1 with
      | .error e => .error (vErrMsg e)
      | .ok _ =>
          match runPostIfFlight v1 inputText with
          | .error e => .error e
          | .ok v2 =>
              let v3 := ensureRequiredKeys v2
              match assertValidOutput v3 with
              | .error e => .error (vErrMsg e)
              | .ok _ => .ok v3

/-- One row as handed to logEvalRun (the columns the handlers vary;
timestamp, provider, model and latency come from the environment). -/
structure EvalRecord where
  success : Bool
  docTypePred : Option (List Char)
  jsonOutput : Option JsonVal
  parseErr : Option (List Char)
  inputType : List Char
  ocrUsed : Bool

/-- The success row logged by an endpoint. -/
def successRecord (inputType : List Char) (ocr : Bool) (data : JsonVal) : EvalRecord :=
  ⟨true, tagStr data, some data, none, inputType, ocr⟩

/-- The failure row logged in an endpoint's catch block. -/
def failureRecord (inputType : List Char) (ocr : Bool) (msg : List Char) : EvalRecord :=
  ⟨false, none, none, some msg, inputType, ocr⟩

/-- Responses an endpoint can produce: 200 with ok/data, 400 or 500
with an error message, or no response at all (the handler itself threw
past the catch block). -/
inductive HttpResponse where
  | okJson (data : JsonVal) : HttpResponse
  | badRequest (msg : List Char) : HttpResponse
  | serverError (msg : List Char) : HttpResponse
  | noResponse : HttpResponse

/-- The JSON body of a response, when one is sent. -/
def resBody : HttpResponse → Option JObj
  | .okJson d => some [("ok".toList, .bool true), ("data".toList, d)]
  | .badRequest m => some [("error".toList, .str m)]
  | .serverError m => some [("error".toList, .str m)]
  | .noResponse => none

/-- The 400 message for a missing text body. -/
def missingTextChars : List Char := "Missing text".toList

/-- The 400 message for a missing file. -/
def missingFileChars : List Char := "Missing file".toList

/-- The 400 message for a non-image upload. -/
def onlyImagesChars : List Char := "Only images supported".toList

/-- The input_type value "text". -/
def textTypeChars : List Char := "text".toList

/-- The input_type value "image". -/
def imageTypeChars : List Char := "image".toList

/-- The required leading mimetype segment "image/". -/
def imageSlashChars : List Char := "image/".toList

/-- Model of the "/api/extract" handler.  `llm` is the outcome of
`await callLLM(inputText)`; `log1` and `log2` are the outcomes of the
first and second call to logEvalRun (none = the insert succeeds, some
msg = it throws msg).  The result pairs the response sent to the caller
with the list of evaluation rows actually appended. -/
def extractHandler (inputText : List Char) (llm : Except (List Char) JsonVal)
    (log1 log2 : Option (List Char)) : HttpResponse × List EvalRecord :=
  if inputText = [] then (.badRequest missingTextChars, [])
  else
    match runPipeline llm inputText with
    | .ok data =>
        match log1 with
        | none => (.okJson data, [successRecord textTypeChars false data])
        | some m =>
            match log2 with
            | none => (.serverError m, [failureRecord textTypeChars false m])
            | some _ => (.noResponse, [])
    | .error e =>
        match log1 with
        | none => (.serverError e, [failureRecord textTypeChars false e])
        | some _ => (.noResponse, [])

/-- Model of the "/api/extract-file" handler.  `ocr` is the outcome of
the external OCR capability on the uploaded image; the rest is as for
the text endpoint, with input_type "image" and ocr_used set. -/
def extractFileHandler (fileProvided : Bool) (mimetype : List Char)
    (ocr : Except (List Char) (List Char)) (llm : Except (List Char) JsonVal)
    (log1 log2 : Option (List Char)) : HttpResponse × List EvalRecord :=
  if fileProvided = false then (.badRequest missingFileChars, [])
  else if mimetype.take 6 ≠ imageSlashChars then (.badRequest onlyImagesChars, [])
  else
    match (do let text ← ocr; runPipeline llm text : Except (List Char) JsonVal) with
    | .ok data =>
        match log1 with
        | none => (.okJson data, [successRecord imageTypeChars true data])
        | some m =>
            match log2 with
            | none => (.serverError m, [failureRecord imageTypeChars true m])
            | some _ => (.noResponse, [])
    | .error e =>
        match log1 with
        | none => (.serverError e, [failureRecord imageTypeChars true e])
        | some _ => (.noResponse, [])

-- ===================================================================
-- Concrete sample inputs used by witnesses and counterexamples
-- ===================================================================

/-- Newline character. -/
def nlChar : Char := Char.ofNat 10

/-- Balancedness of a brace-delimited object substring: nonempty, net
brace depth zero, and the depth does not return to zero before the end
(exactly the situation of an object with no braces inside string
literals). -/
def BraceBalanced (obj : List Char) : Prop :=
  obj ≠ [] ∧ braceSum obj = 0 ∧ ∀ m, m < obj.length → 0 < m → braceSum (obj.take m) ≠ 0

/-- Flight record whose overallFrom is null but whose returnDate is a
date string. -/
def c1obj : JObj :=
  [(typeK, .str flightTagChars), (passengerNameK, .null), (ticketNumberK, .null),
   (tripTypeK, .str roundTripChars), (overallFromK, .null),
   (overallToK, .str "PARIS".toList), (returnDateK, .str "2024-05-01".toList)]

/-- A source text for the record above. -/
def c1text : List Char := "ticket PARIS 2024-05-01".toList

/-- Flight record with cities that do not occur in the witness text. -/
def c1wobj : JObj :=
  [(typeK, .str flightTagChars), (passengerNameK, .null), (ticketNumberK, .null),
   (tripTypeK, .str roundTripChars), (overallFromK, .str "LONDON".toList),
   (overallToK, .str "PARIS".toList), (returnDateK, .str "2024-05-01".toList)]

/-- A text mentioning neither city. -/
def c1wtext : List Char := "no cities here".toList

/-- A complete hotel record (every required key present). -/
def c2hotelObj : JObj :=
  (typeK, JsonVal.str hotelTagChars) :: hotelKeys.map (fun k => (k, JsonVal.null))

/-- A source text for the hotel record. -/
def c2text : List Char := "hotel receipt 123".toList

/-- A database error message thrown by the evaluation recorder. -/
def c2logErr : List Char := "SQLITE_BUSY: database is locked".toList

/-- Flight record for the one-way scenario (LONDON then PARIS, no
further LONDON). -/
def c5obj : JObj :=
  [(typeK, .str flightTagChars), (passengerNameK, .null), (ticketNumberK, .null),
   (tripTypeK, .str roundTripChars), (overallFromK, .str "LONDON".toList),
   (overallToK, .str "PARIS".toList), (returnDateK, .str "2024-05-09".toList)]

/-- Text containing LONDON then PARIS and no later LONDON. -/
def c5text : List Char := "FLIGHT LONDON TO PARIS 2024-04-01".toList

/-- Flight record for the round-trip scenario. -/
def c6obj : JObj :=
  [(typeK, .str flightTagChars), (passengerNameK, .null), (ticketNumberK, .null),
   (tripTypeK, .str oneWayChars), (overallFromK, .str "LONDON".toList),
   (overallToK, .str "PARIS".toList), (returnDateK, .str "2024-05-09".toList)]

/-- Text whose later LONDON occurrence has no PARIS within 400
characters after it and a date next to it. -/
def c6text : List Char := "FLIGHT LONDON TO PARIS 2024-04-01 RETURN LONDON 2024-05-09".toList

/-- An object carrying only the flight tag. -/
def c7obj : JObj := [(typeK, JsonVal.str flightTagChars)]

/-- A value with an unrecognized tag. -/
def c7bad : JsonVal := .obj [(typeK, .str "car".toList)]

/-- The embedded JSON object of the decoder witness. -/
def c8obj : List Char :=
  [lbrace] ++ "\"type\":\"hotel\",\"totalPrice\":1".toList ++ [rbrace]

/-- Prose before the fenced object. -/
def c8pre : List Char := "Here is the result:".toList ++ [nlChar]

/-- Text after the object in the stripped response. -/
def c8post : List Char := [nlChar, nlChar] ++ "Thanks!".toList

/-- The raw model response: prose, a fenced json block, more prose. -/
def c8raw : List Char :=
  c8pre ++ fencePat ++ "json".toList ++ [nlChar] ++ c8obj ++ [nlChar] ++ fencePat ++
    [nlChar] ++ "Thanks!".toList

/-- The parse result the external JSON.parse would return for the
embedded object. -/
def c8val : JsonVal := .obj [(typeK, .str hotelTagChars), ("totalPrice".toList, .num 1)]

/-- A model of JSON.parse for the witness: it recognizes exactly the
embedded object text. -/
def c8parse (s : List Char) : Option JsonVal :=
  if s = c8obj then some c8val else none

/-- Record used by the frame-condition witness. -/
def c10obj : JObj :=
  [(typeK, .str flightTagChars), (passengerNameK, .str "MR. JOHN A. SMITH".toList),
   (ticketNumberK, .str "125-4411 782 634".toList), (tripTypeK, .null),
   (overallFromK, .str "LONDON".toList), (overallToK, .str "PARIS".toList),
   ("departureDate".toList, .str "2024-04-01".toList), (returnDateK, .null),
   ("currency".toList, .str "EUR".toList), ("totalPrice".toList, .num 250)]

/-- Text for the frame-condition witness. -/
def c10text : List Char := "LONDON PARIS 2024-04-01".toList

/-- The record postProcessFlight produces for `c1wobj` / `c1wtext`. -/
def c1wres : JObj :=
  [(typeK, .str flightTagChars), (passengerNameK, .null), (ticketNumberK, .null),
   (tripTypeK, .str oneWayChars), (overallFromK, .str "LONDON".toList),
   (overallToK, .str "PARIS".toList), (returnDateK, .null)]

/-- The record postProcessFlight produces for `c5obj` / `c5text`. -/
def c5res : JObj :=
  [(typeK, .str flightTagChars), (passengerNameK, .null), (ticketNumberK, .null),
   (tripTypeK, .str oneWayChars), (overallFromK, .str "LONDON".toList),
   (overallToK, .str "PARIS".toList), (returnDateK, .null)]

/-- The record postProcessFlight produces for `c6obj` / `c6text`. -/
def c6res : JObj :=
  [(typeK, .str flightTagChars), (passengerNameK, .null), (ticketNumberK, .null),
   (tripTypeK, .str roundTripChars), (overallFromK, .str "LONDON".toList),
   (overallToK, .str "PARIS".toList), (returnDateK, .str "2024-05-09".toList)]

/-- The record postProcessFlight produces for `c10obj` / `c10text`. -/
def c10res : JObj :=
  [(typeK, .str flightTagChars), (passengerNameK, .str "JOHN A SMITH".toList),
   (ticketNumberK, .str "125 4411 782 634".toList), (tripTypeK, .str oneWayChars),
   (overallFromK, .str "LONDON".toList), (overallToK, .str "PARIS".toList),
   ("departureDate".toList, .str "2024-04-01".toList), (returnDateK, .null),
   ("currency".toList, .str "EUR".toList), ("totalPrice".toList, .num 250)]

-- ===================================================================
-- General lemmas: position lists, search, occurrences
-- ===================================================================

theorem mem_natSeq {s n j : Nat} : j ∈ natSeq s n ↔ s ≤ j ∧ j < s + n := by
  induction n generalizing s with
  | zero => simp [natSeq]
  | succ n ih =>
      simp only [natSeq, List.mem_cons, ih]
      omega

theorem find?_natSeq_some {p : Nat → Bool} {s n j : Nat}
    (h : (natSeq s n).find? p = some j) :
    s ≤ j ∧ j < s + n ∧ p j = true ∧ ∀ k, s ≤ k → k < j → p k = false := by
  induction n generalizing s with
  | zero => simp [natSeq] at h
  | succ n ih =>
      rw [natSeq] at h
      by_cases hp : p s = true
      · rw [List.find?_cons_of_pos _ hp] at h
        have hj : s = j := by injection h
        subst hj
        exact ⟨Nat.le_refl s, by omega, hp, fun k hk1 hk2 => absurd hk1 (by omega)⟩
      · rw [List.find?_cons_of_neg _ hp] at h
        have h2 := ih h
        refine ⟨by omega, by omega, h2.2.2.1, ?_⟩
        intro k hk1 hk2
        rcases Nat.eq_or_lt_of_le hk1 with heq | hlt
        · subst heq
          exact Bool.not_eq_true _ ▸ (by simpa using hp)
        · exact h2.2.2.2 k hlt hk2

theorem find?_natSeq_none {p : Nat → Bool} {s n : Nat}
    (h : (natSeq s n).find? p = none) :
    ∀ j, s ≤ j → j < s + n → p j = false := by
  intro j h1 h2
  have h3 := List.find?_eq_none.mp h j (mem_natSeq.mpr ⟨h1, h2⟩)
  simpa using h3

theorem occursAt_le_length {t p : List Char} {j : Nat} (hp : p ≠ [])
    (h : occursAt t p j = true) : j + p.length ≤ t.length := by
  have hq : (t.drop j).take p.length = p := of_decide_eq_true h
  have hl : ((t.drop j).take p.length).length = p.length := by rw [hq]
  rw [List.length_take, List.length_drop] at hl
  have hp1 : 1 ≤ p.length := by
    cases p with
    | nil => exact absurd rfl hp
    | cons c cs => simp
  omega

theorem indexOfFrom_some {t p : List Char} {i j : Nat}
    (h : indexOfFrom t p i = some j) :
    i ≤ j ∧ occursAt t p j = true ∧ ∀ k, i ≤ k → k < j → occursAt t p k = false := by
  have h2 := find?_natSeq_some h
  exact ⟨h2.1, h2.2.2.1, h2.2.2.2⟩

theorem indexOfFrom_none {t p : List Char} {i : Nat} (hp : p ≠ [])
    (h : indexOfFrom t p i = none) :
    ∀ j, i ≤ j → occursAt t p j = false := by
  intro j hij
  by_cases hjl : j < i + (t.length + 1 - i)
  · exact find?_natSeq_none h j hij hjl
  · cases hocc : occursAt t p j with
    | false => rfl
    | true =>
        have hb := occursAt_le_length hp hocc
        have hp1 : 1 ≤ p.length := by
          cases p with
          | nil => exact absurd rfl hp
          | cons c cs => simp
        omega

theorem indexOfFrom_eq_some {t p : List Char} {i j : Nat} (hp : p ≠ [])
    (hij : i ≤ j) (hj : occursAt t p j = true)
    (hmin : ∀ k, i ≤ k → k < j → occursAt t p k = false) :
    indexOfFrom t p i = some j := by
  cases h : indexOfFrom t p i with
  | none =>
      have := indexOfFrom_none hp h j hij
      rw [hj] at this
      exact absurd this (by simp)
  | some j2 =>
      have h2 := indexOfFrom_some h
      have hle : j2 ≤ j := by
        by_contra hgt
        have := h2.2.2 j hij (by omega)
        rw [hj] at this
        exact absurd this (by simp)
      have hge : j ≤ j2 := by
        by_contra hgt
        have := hmin j2 h2.1 (by omega)
        rw [h2.2.1] at this
        exact absurd this (by simp)
      have : j = j2 := by omega
      rw [this]

theorem passesChecks_of_occurs {t a b : List Char} {c : Nat}
    (h : occursAt t a c = true) :
    passesChecks t a b c = (!isRepAt t b c && hasDigitNear t c) := by
  simp [passesChecks, h]

theorem passesChecks_of_not_occurs {t a b : List Char} {c : Nat}
    (h : occursAt t a c = false) :
    passesChecks t a b c = false := by
  simp [passesChecks, h]

theorem scanReturnLeg_sound {t a b : List Char} :
    ∀ {fuel cursor c : Nat}, scanReturnLeg t a b fuel cursor = some c →
      cursor ≤ c ∧ passesChecks t a b c = true ∧
        ∀ j, cursor ≤ j → j < c → passesChecks t a b j = false := by
  intro fuel
  induction fuel with
  | zero =>
      intro cursor c h
      simp [scanReturnLeg] at h
  | succ fuel ih =>
      intro cursor c h
      rw [scanReturnLeg] at h
      cases hidx : indexOfFrom t a cursor with
      | none => simp only [hidx] at h; exact Option.noConfusion h
      | some c0 =>
          simp only [hidx] at h
          have hi := indexOfFrom_some hidx
          by_cases hcond : (!isRepAt t b c0 && hasDigitNear t c0) = true
          · rw [if_pos hcond] at h
            have hc : c0 = c := by injection h
            subst hc
            refine ⟨hi.1, ?_, ?_⟩
            · rw [passesChecks_of_occurs hi.2.1]; exact hcond
            · intro j hj1 hj2
              exact passesChecks_of_not_occurs (hi.2.2 j hj1 hj2)
          · rw [if_neg hcond] at h
            have h2 := ih h
            refine ⟨by omega, h2.2.1, ?_⟩
            intro j hj1 hj2
            by_cases hjc : j < c0
            · exact passesChecks_of_not_occurs (hi.2.2 j hj1 hjc)
            · by_cases hjc2 : j = c0
              · subst hjc2
                rw [passesChecks_of_occurs hi.2.1]
                simpa using hcond
              · exact h2.2.2 j (by omega) hj2

theorem scanReturnLeg_exhaust {t a b : List Char} (ha : a ≠ []) :
    ∀ {fuel cursor : Nat}, t.length ≤ fuel + cursor →
      scanReturnLeg t a b fuel cursor = none →
      ∀ j, cursor ≤ j → passesChecks t a b j = false := by
  intro fuel
  induction fuel with
  | zero =>
      intro cursor hfuel _ j hj
      cases hocc : occursAt t a j with
      | false => exact passesChecks_of_not_occurs hocc
      | true =>
          have hb := occursAt_le_length ha hocc
          have hp1 : 1 ≤ a.length := by
            cases a with
            | nil => exact absurd rfl ha
            | cons c cs => simp
          omega
  | succ fuel ih =>
      intro cursor hfuel h j hj
      rw [scanReturnLeg] at h
      cases hidx : indexOfFrom t a cursor with
      | none =>
          exact passesChecks_of_not_occurs (indexOfFrom_none ha hidx j hj)
      | some c0 =>
          simp only [hidx] at h
          have hi := indexOfFrom_some hidx
          by_cases hcond : (!isRepAt t b c0 && hasDigitNear t c0) = true
          · rw [if_pos hcond] at h
            exact absurd h (by simp)
          · rw [if_neg hcond] at h
            by_cases hjc : j < c0
            · exact passesChecks_of_not_occurs (hi.2.2 j hj hjc)
            · by_cases hjc2 : j = c0
              · subst hjc2
                rw [passesChecks_of_occurs hi.2.1]
                simpa using hcond
              · exact ih (by omega) h j (by omega)

theorem scanReturnLeg_finds {t a b : List Char} (ha : a ≠ []) (fuel cursor : Nat)
    {j : Nat} (hfuel : t.length ≤ fuel + cursor) (hj : cursor ≤ j)
    (hp : passesChecks t a b j = true) :
    ∃ c, scanReturnLeg t a b fuel cursor = some c ∧ c ≤ j := by
  cases h : scanReturnLeg t a b fuel cursor with
  | none =>
      have := scanReturnLeg_exhaust ha hfuel h j hj
      rw [hp] at this
      exact absurd this (by simp)
  | some c =>
      have hs := scanReturnLeg_sound h
      refine ⟨c, rfl, ?_⟩
      by_contra hgt
      have := hs.2.2 j hj (by omega)
      rw [hp] at this
      exact absurd this (by simp)

-- ===================================================================
-- Object read/write lemmas
-- ===================================================================

theorem getVal_setKey_self (o : JObj) (k : List Char) (v : JsonVal) :
    getVal (setKey o k v) k = some v := by
  induction o with
  | nil => simp [setKey, getVal]
  | cons kv rest ih =>
      obtain ⟨k', v'⟩ := kv
      by_cases h : k' = k
      · simp [setKey, h, getVal]
      · simp [setKey, h, getVal, ih]

theorem getVal_setKey_ne (o : JObj) (k k2 : List Char) (v : JsonVal) (h : k2 ≠ k) :
    getVal (setKey o k v) k2 = getVal o k2 := by
  induction o with
  | nil => simp [setKey, getVal, Ne.symm h]
  | cons kv rest ih =>
      obtain ⟨k', v'⟩ := kv
      by_cases h2 : k' = k
      · subst h2
        simp [setKey, getVal, Ne.symm h]
      · simp [setKey, h2, getVal, ih]

theorem getVal_append_some {o : JObj} {k : List Char} {v : JsonVal}
    (h : getVal o k = some v) (e : JObj) : getVal (o ++ e) k = some v := by
  induction o with
  | nil => simp [getVal] at h
  | cons kv rest ih =>
      obtain ⟨k', v'⟩ := kv
      by_cases h2 : k' = k
      · simp [getVal, h2] at h ⊢
        exact h
      · simp [getVal, h2] at h ⊢
        exact ih h

theorem getVal_append_none {o : JObj} {k : List Char}
    (h : getVal o k = none) (e : JObj) : getVal (o ++ e) k = getVal e k := by
  induction o with
  | nil => simp
  | cons kv rest ih =>
      obtain ⟨k', v'⟩ := kv
      by_cases h2 : k' = k
      · simp [getVal, h2] at h
      · simp [getVal, h2] at h ⊢
        exact ih h

theorem getVal_addMissing_of_some {o : JObj} {k : List Char} {v : JsonVal}
    (h : getVal o k = some v) (k2 : List Char) :
    getVal (addMissing o k2) k = some v := by
  unfold addMissing
  by_cases h2 : hasKey o k2 = true
  · rw [if_pos h2]; exact h
  · rw [if_neg h2]; exact getVal_append_some h _

theorem getVal_ensureKeysList_of_some {ks : List (List Char)} {o : JObj}
    {k : List Char} {v : JsonVal} (h : getVal o k = some v) :
    getVal (ensureKeysList o ks) k = some v := by
  induction ks generalizing o with
  | nil => exact h
  | cons k2 ks ih => exact ih (getVal_addMissing_of_some h k2)

theorem getVal_ensureKeysList_missing {ks : List (List Char)} {o : JObj}
    {k : List Char} (hk : k ∈ ks) (h : getVal o k = none) :
    getVal (ensureKeysList o ks) k = some JsonVal.null := by
  induction ks generalizing o with
  | nil => simp at hk
  | cons k2 ks ih =>
      by_cases he : k2 = k
      · subst he
        have h1 : addMissing o k2 = o ++ [(k2, JsonVal.null)] := by
          unfold addMissing
          rw [if_neg (by simp [hasKey, h])]
        have h2 : getVal (addMissing o k2) k2 = some JsonVal.null := by
          rw [h1, getVal_append_none h]
          simp [getVal]
        show getVal (ensureKeysList (addMissing o k2) ks) k2 = some JsonVal.null
        exact getVal_ensureKeysList_of_some h2
      · have h2 : getVal (addMissing o k2) k = none := by
          unfold addMissing
          by_cases h3 : hasKey o k2 = true
          · rw [if_pos h3]; exact h
          · rw [if_neg h3, getVal_append_none h]
            simp [getVal, he]
        have hk2 : k ∈ ks := by
          cases List.mem_cons.mp hk with
          | inl h4 => exact absurd h4.symm he
          | inr h4 => exact h4
        show getVal (ensureKeysList (addMissing o k2) ks) k = some JsonVal.null
        exact ih hk2 h2

theorem hasKey_ensureKeysList_of_mem {ks : List (List Char)} {o : JObj}
    {k : List Char} (hk : k ∈ ks) :
    hasKey (ensureKeysList o ks) k = true := by
  cases h : getVal o k with
  | some v => simp [hasKey, @getVal_ensureKeysList_of_some ks _ _ _ h]
  | none => simp [hasKey, getVal_ensureKeysList_missing hk h]

theorem checkKeys_ok {o : JObj} {kind : List Char} {ks : List (List Char)}
    (h : ∀ k ∈ ks, hasKey o k = true) : checkKeys o kind ks = .ok () := by
  induction ks with
  | nil => rfl
  | cons k ks ih =>
      unfold checkKeys
      rw [if_pos (h k (by simp))]
      exact ih (fun k2 hk2 => h k2 (by simp [hk2]))

theorem getVal_setKey2_ne (o : JObj) (k1 k2 k : List Char) (v1 v2 : JsonVal)
    (h1 : k ≠ k1) (h2 : k ≠ k2) :
    getVal (setKey (setKey o k1 v1) k2 v2) k = getVal o k := by
  rw [getVal_setKey_ne _ _ _ _ h2, getVal_setKey_ne _ _ _ _ h1]

-- ===================================================================
-- Shape of postProcessFlight results
-- ===================================================================

theorem postProcessFlight_spec (o : JObj) (text : List Char) (r : JObj)
    (hr : postProcessFlight o text = some r) :
    ∃ a0 b0,
      jsStrCoerce (getVal o overallFromK) = some a0 ∧
      jsStrCoerce (getVal o overallToK) = some b0 ∧
      r = (match classifyTrip (jsLowerStr text) (jsLowerStr a0) (jsLowerStr b0) with
           | .emptyCity =>
               setKey (setKey (setKey o passengerNameK
                 (optToJson (cleanNameAllCaps (getVal o passengerNameK)))) ticketNumberK
                 (optToJson (cleanTicketNumber (getVal o ticketNumberK)))) tripTypeK
                 (.str oneWayChars)
           | .roundTrip =>
               setKey (setKey (setKey (setKey o passengerNameK
                 (optToJson (cleanNameAllCaps (getVal o passengerNameK)))) ticketNumberK
                 (optToJson (cleanTicketNumber (getVal o ticketNumberK)))) tripTypeK
                 (.str oneWayChars)) tripTypeK (.str roundTripChars)
           | .oneWayForced =>
               setKey (setKey (setKey (setKey o passengerNameK
                 (optToJson (cleanNameAllCaps (getVal o passengerNameK)))) ticketNumberK
                 (optToJson (cleanTicketNumber (getVal o ticketNumberK)))) tripTypeK
                 (.str oneWayChars)) returnDateK .null) := by
  simp only [postProcessFlight] at hr
  rw [getVal_setKey_ne o passengerNameK ticketNumberK _ (by decide)] at hr
  rw [getVal_setKey2_ne o passengerNameK ticketNumberK overallFromK _ _ (by decide) (by decide)] at hr
  rw [getVal_setKey2_ne o passengerNameK ticketNumberK overallToK _ _ (by decide) (by decide)] at hr
  cases hca : jsStrCoerce (getVal o overallFromK) with
  | none => rw [hca] at hr; exact Option.noConfusion hr
  | some a0 =>
      cases hcb : jsStrCoerce (getVal o overallToK) with
      | none => rw [hca, hcb] at hr; exact Option.noConfusion hr
      | some b0 =>
          rw [hca, hcb] at hr
          refine ⟨a0, b0, rfl, rfl, ?_⟩
          cases hc : classifyTrip (jsLowerStr text) (jsLowerStr a0) (jsLowerStr b0) with
          | emptyCity =>
              simp only [hc, Option.some.injEq] at hr
              exact hr.symm
          | roundTrip =>
              simp only [hc, Option.some.injEq] at hr
              exact hr.symm
          | oneWayForced =>
              simp only [hc, Option.some.injEq] at hr
              exact hr.symm

theorem occurs_of_passes {t a b : List Char} {c : Nat}
    (h : passesChecks t a b c = true) : occursAt t a c = true := by
  simp only [passesChecks, Bool.and_eq_true] at h
  exact h.1.1

theorem passes_lt_length {t a b : List Char} {c : Nat} (ha : a ≠ [])
    (h : passesChecks t a b c = true) : c < t.length := by
  have h2 := occursAt_le_length ha (occurs_of_passes h)
  have hp1 : 1 ≤ a.length := by
    cases a with
    | nil => exact absurd rfl ha
    | cons x xs => simp
  omega

theorem classifyTrip_not_empty {t a b : List Char} (ha : a ≠ []) (hb : b ≠ []) :
    classifyTrip t a b = .roundTrip ∨ classifyTrip t a b = .oneWayForced := by
  unfold classifyTrip
  rw [if_neg (by simp [ha, hb])]
  cases hia : indexOfFrom t a 0 with
  | none => simp [hia]
  | some ia =>
      simp only [hia]
      cases hib : indexOfFrom t b ia with
      | none => simp [hib]
      | some ib =>
          simp only [hib]
          cases hs : scanReturnLeg t a b (t.length + 1) ib with
          | none => simp [hs]
          | some c => simp [hs]

theorem classifyTrip_forced_of_nopass {t a b : List Char} {ia ib : Nat}
    (ha : a ≠ []) (hb : b ≠ [])
    (hia : indexOfFrom t a 0 = some ia) (hib : indexOfFrom t b ia = some ib)
    (hnp : ∀ j, j < t.length → ib ≤ j → passesChecks t a b j = false) :
    classifyTrip t a b = .oneWayForced := by
  have hscan : scanReturnLeg t a b (t.length + 1) ib = none := by
    cases hs : scanReturnLeg t a b (t.length + 1) ib with
    | none => rfl
    | some c =>
        have h2 := scanReturnLeg_sound hs
        have h3 := hnp c (passes_lt_length ha h2.2.1) h2.1
        rw [h2.2.1] at h3
        exact absurd h3 (by simp)
  unfold classifyTrip
  rw [if_neg (by simp [ha, hb])]
  simp only [hia, hib, hscan]

theorem classifyTrip_round_of_pass {t a b : List Char} {ia ib j : Nat}
    (ha : a ≠ []) (hb : b ≠ [])
    (hia : indexOfFrom t a 0 = some ia) (hib : indexOfFrom t b ia = some ib)
    (hj : ib ≤ j) (hp : passesChecks t a b j = true) :
    classifyTrip t a b = .roundTrip ∧
      ∃ c, scanReturnLeg t a b (t.length + 1) ib = some c ∧
        ib ≤ c ∧ c ≤ j ∧ passesChecks t a b c = true ∧
        ∀ j2, ib ≤ j2 → j2 < c → passesChecks t a b j2 = false := by
  obtain ⟨c, hscan, hcj⟩ :=
    scanReturnLeg_finds ha (t.length + 1) ib (by omega) hj hp
  have hs := scanReturnLeg_sound hscan
  constructor
  · unfold classifyTrip
    rw [if_neg (by simp [ha, hb])]
    simp only [hia, hib, hscan]
  · exact ⟨c, hscan, hs.1, hcj, hs.2.1, hs.2.2⟩

-- ===================================================================
-- Claims C1, C5, C6, C10: postProcessFlight
-- ===================================================================

/-- Claim C1, counterexample: a flight record whose overallFrom is null
takes the early exit of postProcessFlight, which leaves the model's
returnDate in place while tripType is "one_way" — so the claimed
invariant (one_way implies returnDate null) fails at this input. -/
theorem oneWay_nonNull_returnDate_cex :
    ((postProcessFlight c1obj c1text).map (fun r => (getVal r tripTypeK, getVal r returnDateK)))
        = some (some (.str oneWayChars), some (.str "2024-05-01".toList)) ∧
    JsonVal.str "2024-05-01".toList ≠ JsonVal.null :=
  ⟨rfl, fun h => JsonVal.noConfusion h⟩

/-- Claim C1 (amended): when the lower-cased origin and destination
strings are both non-empty, every record returned by postProcessFlight
with tripType "one_way" has returnDate null. -/
theorem oneWay_forces_null_returnDate (o : JObj) (text : List Char) (r : JObj)
    (a b : List Char)
    (hA : originLower o = some a) (ha : a ≠ [])
    (hB : destLower o = some b) (hb : b ≠ [])
    (hr : postProcessFlight o text = some r)
    (ht : getVal r tripTypeK = some (.str oneWayChars)) :
    getVal r returnDateK = some JsonVal.null := by
  obtain ⟨a0, b0, hca, hcb, hrr⟩ := postProcessFlight_spec o text r hr
  simp only [originLower, hca, Option.map_some', Option.some.injEq] at hA
  simp only [destLower, hcb, Option.map_some', Option.some.injEq] at hB
  subst hA
  subst hB
  rcases classifyTrip_not_empty (t := jsLowerStr text) ha hb with hc | hc
  · rw [hc] at hrr
    subst hrr
    rw [getVal_setKey_self] at ht
    have h2 := Option.some.inj ht
    have h3 : roundTripChars = oneWayChars := by injection h2
    exact absurd h3 (by decide)
  · rw [hc] at hrr
    subst hrr
    exact getVal_setKey_self _ _ _

/-- Claim C1 witness: a concrete flight record with non-empty cities
not present in the text comes back one_way with returnDate null. -/
theorem oneWay_forces_null_returnDate_wit :
    postProcessFlight c1wobj c1wtext = some c1wres ∧
    getVal c1wres returnDateK = some JsonVal.null :=
  ⟨rfl, oneWay_forces_null_returnDate c1wobj c1wtext c1wres ("london".toList)
    ("paris".toList) rfl (by decide) rfl (by decide) rfl rfl⟩

/-- Claim C5: with both city strings non-empty and the forward leg
found, if no position at or after the destination occurrence passes
both classifier checks, postProcessFlight returns tripType one_way and
returnDate null, whatever the model guessed. -/
theorem one_way_when_no_return_leg (o : JObj) (text : List Char) (a b : List Char)
    (ia ib : Nat) (r : JObj)
    (hA : originLower o = some a) (ha : a ≠ [])
    (hB : destLower o = some b) (hb : b ≠ [])
    (hia : indexOfFrom (jsLowerStr text) a 0 = some ia)
    (hib : indexOfFrom (jsLowerStr text) b ia = some ib)
    (hnp : ∀ j, j < (jsLowerStr text).length → ib ≤ j →
        passesChecks (jsLowerStr text) a b j = false)
    (hr : postProcessFlight o text = some r) :
    getVal r tripTypeK = some (.str oneWayChars) ∧
      getVal r returnDateK = some JsonVal.null := by
  obtain ⟨a0, b0, hca, hcb, hrr⟩ := postProcessFlight_spec o text r hr
  simp only [originLower, hca, Option.map_some', Option.some.injEq] at hA
  simp only [destLower, hcb, Option.map_some', Option.some.injEq] at hB
  subst hA
  subst hB
  have hc := classifyTrip_forced_of_nopass ha hb hia hib hnp
  rw [hc] at hrr
  subst hrr
  constructor
  · rw [getVal_setKey_ne _ _ _ _ (by decide)]
    exact getVal_setKey_self _ _ _
  · exact getVal_setKey_self _ _ _

/-- Claim C5 witness: LONDON then PARIS with no later LONDON mention
yields one_way with returnDate null despite the model's round_trip. -/
theorem one_way_when_no_return_leg_wit :
    postProcessFlight c5obj c5text = some c5res ∧
    getVal c5res tripTypeK = some (.str oneWayChars) ∧
    getVal c5res returnDateK = some JsonVal.null := by
  refine ⟨rfl, ?_⟩
  exact one_way_when_no_return_leg c5obj c5text ("london".toList) ("paris".toList)
    7 17 c5res rfl (by decide) rfl (by decide) rfl rfl (by decide) rfl

/-- Claim C6: with the forward leg found, a later origin occurrence
that is not followed by the destination within 400 characters and has a
digit in its window makes postProcessFlight classify round_trip at the
first such occurrence, retaining the model's returnDate; repetition
occurrences never pass the checks. -/
theorem round_trip_on_return_leg (o : JObj) (text : List Char) (a b : List Char)
    (ia ib j : Nat) (r : JObj)
    (hA : originLower o = some a) (ha : a ≠ [])
    (hB : destLower o = some b) (hb : b ≠ [])
    (hia : indexOfFrom (jsLowerStr text) a 0 = some ia)
    (hib : indexOfFrom (jsLowerStr text) b ia = some ib)
    (hj : ib ≤ j) (hp : passesChecks (jsLowerStr text) a b j = true)
    (hr : postProcessFlight o text = some r) :
    getVal r tripTypeK = some (.str roundTripChars) ∧
    getVal r returnDateK = getVal o returnDateK ∧
    (∃ c, scanReturnLeg (jsLowerStr text) a b ((jsLowerStr text).length + 1) ib = some c ∧
        ib ≤ c ∧ c ≤ j ∧ passesChecks (jsLowerStr text) a b c = true ∧
        ∀ j2, ib ≤ j2 → j2 < c → passesChecks (jsLowerStr text) a b j2 = false) ∧
    (∀ j2, isRepAt (jsLowerStr text) b j2 = true →
        passesChecks (jsLowerStr text) a b j2 = false) := by
  obtain ⟨a0, b0, hca, hcb, hrr⟩ := postProcessFlight_spec o text r hr
  simp only [originLower, hca, Option.map_some', Option.some.injEq] at hA
  simp only [destLower, hcb, Option.map_some', Option.some.injEq] at hB
  subst hA
  subst hB
  obtain ⟨hc, hex⟩ := classifyTrip_round_of_pass ha hb hia hib hj hp
  rw [hc] at hrr
  subst hrr
  refine ⟨getVal_setKey_self _ _ _, ?_, hex, ?_⟩
  · rw [getVal_setKey_ne _ _ _ _ (by decide), getVal_setKey_ne _ _ _ _ (by decide)]
    exact getVal_setKey2_ne o _ _ _ _ _ (by decide) (by decide)
  · intro j2 hrep
    simp [passesChecks, hrep]

/-- Claim C6 witness: a text whose later LONDON occurrence sits next to
a date with no PARIS after it classifies as round_trip and keeps the
model's returnDate. -/
theorem round_trip_on_return_leg_wit :
    postProcessFlight c6obj c6text = some c6res ∧
    getVal c6res tripTypeK = some (.str roundTripChars) ∧
    getVal c6res returnDateK = getVal c6obj returnDateK := by
  have h := round_trip_on_return_leg c6obj c6text ("london".toList) ("paris".toList)
    7 17 41 c6res rfl (by decide) rfl (by decide) rfl rfl (by decide) (by decide) rfl
  exact ⟨rfl, h.1, h.2.1⟩

/-- Claim C10: every record postProcessFlight returns has tripType
exactly "one_way" or "round_trip", and every field other than
passengerName, ticketNumber, tripType and returnDate is unchanged. -/
theorem postProcess_tripType_and_frame (o : JObj) (text : List Char) (r : JObj)
    (hr : postProcessFlight o text = some r) :
    (getVal r tripTypeK = some (.str oneWayChars) ∨
     getVal r tripTypeK = some (.str roundTripChars)) ∧
    (∀ k, k ≠ passengerNameK → k ≠ ticketNumberK → k ≠ tripTypeK → k ≠ returnDateK →
        getVal r k = getVal o k) := by
  obtain ⟨a0, b0, hca, hcb, hrr⟩ := postProcessFlight_spec o text r hr
  cases hc : classifyTrip (jsLowerStr text) (jsLowerStr a0) (jsLowerStr b0) with
  | emptyCity =>
      rw [hc] at hrr
      subst hrr
      refine ⟨Or.inl (getVal_setKey_self _ _ _), ?_⟩
      intro k h1 h2 h3 _
      rw [getVal_setKey_ne _ _ _ _ h3]
      exact getVal_setKey2_ne o _ _ _ _ _ h1 h2
  | roundTrip =>
      rw [hc] at hrr
      subst hrr
      refine ⟨Or.inr (getVal_setKey_self _ _ _), ?_⟩
      intro k h1 h2 h3 _
      rw [getVal_setKey_ne _ _ _ _ h3, getVal_setKey_ne _ _ _ _ h3]
      exact getVal_setKey2_ne o _ _ _ _ _ h1 h2
  | oneWayForced =>
      rw [hc] at hrr
      subst hrr
      constructor
      · exact Or.inl (by
          rw [getVal_setKey_ne _ _ _ _ (by decide)]
          exact getVal_setKey_self _ _ _)
      · intro k h1 h2 h3 h4
        rw [getVal_setKey_ne _ _ _ _ h4, getVal_setKey_ne _ _ _ _ h3]
        exact getVal_setKey2_ne o _ _ _ _ _ h1 h2

/-- Claim C10 witness: a fully populated record is post-processed with
tripType in the two-value set and its other fields (here currency)
untouched. -/
theorem postProcess_tripType_and_frame_wit :
    postProcessFlight c10obj c10text = some c10res ∧
    (getVal c10res tripTypeK = some (.str oneWayChars) ∨
     getVal c10res tripTypeK = some (.str roundTripChars)) ∧
    getVal c10res ("currency".toList) = getVal c10obj ("currency".toList) := by
  have h := postProcess_tripType_and_frame c10obj c10text c10res rfl
  exact ⟨rfl, h.1, h.2 _ (by decide) (by decide) (by decide) (by decide)⟩

-- ===================================================================
-- Claim C7: completion and validation
-- ===================================================================

theorem tagIs_obj (o : JObj) (s : List Char) :
    tagIs (.obj o) s = (match getVal o typeK with
                        | some (.str t) => decide (t = s)
                        | _ => false) := rfl

/-- Claim C7: for an object tagged "flight" or "hotel", the completion
pass inserts every missing required key as null and the completed
object validates; a value whose tag is outside the two-value set fails
validation with a SchemaError. -/
theorem completion_then_validation (o : JObj) (v : JsonVal) :
    (getVal o typeK = some (.str flightTagChars) →
       ensureRequiredKeys (.obj o) = .obj (ensureKeysList o flightKeys) ∧
       (∀ k, k ∈ flightKeys → hasKey (ensureKeysList o flightKeys) k = true ∧
          (getVal o k = none → getVal (ensureKeysList o flightKeys) k = some JsonVal.null)) ∧
       assertValidOutput (ensureRequiredKeys (.obj o)) = .ok ()) ∧
    (getVal o typeK = some (.str hotelTagChars) →
       ensureRequiredKeys (.obj o) = .obj (ensureKeysList o hotelKeys) ∧
       (∀ k, k ∈ hotelKeys → hasKey (ensureKeysList o hotelKeys) k = true ∧
          (getVal o k = none → getVal (ensureKeysList o hotelKeys) k = some JsonVal.null)) ∧
       assertValidOutput (ensureRequiredKeys (.obj o)) = .ok ()) ∧
    (tagIs v flightTagChars = false → tagIs v hotelTagChars = false →
       assertValidOutput v = .error (.invalidType v)) := by
  refine ⟨?_, ?_, ?_⟩
  · intro htag
    have hflag : tagIs (.obj o) flightTagChars = true := by
      rw [tagIs_obj, htag]
      simp
    have hens : ensureRequiredKeys (.obj o) = .obj (ensureKeysList o flightKeys) := by
      simp only [ensureRequiredKeys]
      rw [if_pos hflag]
    refine ⟨hens, ?_, ?_⟩
    · intro k hk
      exact ⟨hasKey_ensureKeysList_of_mem hk,
             fun hnone => getVal_ensureKeysList_missing hk hnone⟩
    · rw [hens]
      have htag2 : getVal (ensureKeysList o flightKeys) typeK = some (.str flightTagChars) :=
        getVal_ensureKeysList_of_some htag
      have hflag2 : tagIs (.obj (ensureKeysList o flightKeys)) flightTagChars = true := by
        rw [tagIs_obj, htag2]
        simp
      simp only [assertValidOutput]
      rw [if_pos hflag2]
      exact checkKeys_ok (fun k hk => hasKey_ensureKeysList_of_mem hk)
  · intro htag
    have hflag : ¬ tagIs (.obj o) flightTagChars = true := by
      rw [tagIs_obj, htag]
      decide
    have hhot : tagIs (.obj o) hotelTagChars = true := by
      rw [tagIs_obj, htag]
      simp
    have hens : ensureRequiredKeys (.obj o) = .obj (ensureKeysList o hotelKeys) := by
      simp only [ensureRequiredKeys]
      rw [if_neg hflag, if_pos hhot]
    refine ⟨hens, ?_, ?_⟩
    · intro k hk
      exact ⟨hasKey_ensureKeysList_of_mem hk,
             fun hnone => getVal_ensureKeysList_missing hk hnone⟩
    · rw [hens]
      have htag2 : getVal (ensureKeysList o hotelKeys) typeK = some (.str hotelTagChars) :=
        getVal_ensureKeysList_of_some htag
      have hflag2 : ¬ tagIs (.obj (ensureKeysList o hotelKeys)) flightTagChars = true := by
        rw [tagIs_obj, htag2]
        decide
      have hhot2 : tagIs (.obj (ensureKeysList o hotelKeys)) hotelTagChars = true := by
        rw [tagIs_obj, htag2]
        simp
      simp only [assertValidOutput]
      rw [if_neg hflag2, if_pos hhot2]
      exact checkKeys_ok (fun k hk => hasKey_ensureKeysList_of_mem hk)
  · intro hf hh
    cases v with
    | obj o2 =>
        simp only [assertValidOutput]
        rw [if_neg (show ¬ tagIs (.obj o2) flightTagChars = true by simp [hf]),
            if_neg (show ¬ tagIs (.obj o2) hotelTagChars = true by simp [hh])]
    | null => rfl
    | bool b2 => rfl
    | num n2 => rfl
    | str s2 => rfl
    | arr xs => rfl

/-- Claim C7 witness: an object carrying only the flight tag is
completed to a validating record, and a value tagged "car" is rejected
by validation. -/
theorem completion_then_validation_wit :
    assertValidOutput (ensureRequiredKeys (.obj c7obj)) = .ok () ∧
    assertValidOutput c7bad = .error (.invalidType c7bad) := by
  have h := completion_then_validation c7obj c7bad
  exact ⟨(h.1 rfl).2.2, h.2.2 (by decide) (by decide)⟩

-- ===================================================================
-- Claims C2, C3, C4: endpoint behaviour
-- ===================================================================

/-- Claim C2 (code bug): when the extraction pipeline succeeds but the
first logEvalRun call throws, the handler's catch block turns the
successful extraction into a 500 error response carrying the logging
error's message — the recorder failure is not isolated from the
response path. -/
theorem logFailure_turns_success_into_error :
    runPipeline (.ok (.obj c2hotelObj)) c2text = .ok (.obj c2hotelObj) ∧
    extractHandler c2text (.ok (.obj c2hotelObj)) (some c2logErr) none
      = (.serverError c2logErr, [failureRecord textTypeChars false c2logErr]) ∧
    extractHandler c2text (.ok (.obj c2hotelObj)) none none
      = (.okJson (.obj c2hotelObj),
         [successRecord textTypeChars false (.obj c2hotelObj)]) :=
  ⟨rfl, rfl, rfl⟩

/-- Claim C3, counterexample: a request with empty text is answered 400
before any call to the evaluation recorder, so zero records are
appended instead of exactly one. -/
theorem missingText_logs_nothing_cex :
    extractHandler [] (.ok JsonVal.null) none none = (.badRequest missingTextChars, []) ∧
    (extractHandler [] (.ok JsonVal.null) none none).2.length ≠ 1 :=
  ⟨rfl, by decide⟩

/-- Claim C3 (amended): every request that passes input validation and
whose first recorder call succeeds appends exactly one evaluation
record and receives a response; requests rejected by input validation
(empty text, missing file, non-image upload) are answered 400 with no
record appended. -/
theorem eval_logging_per_request :
    (∀ text llm log2, text ≠ [] →
       (extractHandler text llm none log2).2.length = 1 ∧
       (extractHandler text llm none log2).1 ≠ .noResponse) ∧
    (∀ llm log1 log2,
       extractHandler [] llm log1 log2 = (.badRequest missingTextChars, [])) ∧
    (∀ mt ocr llm log2, mt.take 6 = imageSlashChars →
       (extractFileHandler true mt ocr llm none log2).2.length = 1 ∧
       (extractFileHandler true mt ocr llm none log2).1 ≠ .noResponse) ∧
    (∀ mt ocr llm log1 log2,
       extractFileHandler false mt ocr llm log1 log2 = (.badRequest missingFileChars, [])) ∧
    (∀ mt ocr llm log1 log2, mt.take 6 ≠ imageSlashChars →
       extractFileHandler true mt ocr llm log1 log2 = (.badRequest onlyImagesChars, [])) := by
  refine ⟨?_, ?_, ?_, ?_, ?_⟩
  · intro text llm log2 htext
    unfold extractHandler
    rw [if_neg htext]
    cases runPipeline llm text with
    | ok data => exact ⟨rfl, by simp⟩
    | error e => exact ⟨rfl, by simp⟩
  · intro llm log1 log2
    unfold extractHandler
    rw [if_pos rfl]
  · intro mt ocr llm log2 hmt
    unfold extractFileHandler
    rw [if_neg (by simp), if_neg (by simp [hmt])]
    cases (do let text ← ocr; runPipeline llm text : Except (List Char) JsonVal) with
    | ok data => exact ⟨rfl, by simp⟩
    | error e => exact ⟨rfl, by simp⟩
  · intro mt ocr llm log1 log2
    unfold extractFileHandler
    rw [if_pos rfl]
  · intro mt ocr llm log1 log2 hmt
    unfold extractFileHandler
    rw [if_neg (by simp), if_pos hmt]

/-- Claim C3 witness: a failing pipeline on non-empty text still
appends exactly one record. -/
theorem eval_logging_per_request_wit :
    (extractHandler c2text (.error c2logErr) none none).2.length = 1 ∧
    extractHandler [] (.error c2logErr) none none = (.badRequest missingTextChars, []) :=
  ⟨(eval_logging_per_request.1 c2text (.error c2logErr) none (by decide)).1,
   eval_logging_per_request.2.1 (.error c2logErr) none none⟩

/-- Claim C4, counterexample: the 400 response for missing text has a
body consisting only of an error message — it carries no `ok` flag. -/
theorem error_response_lacks_ok_cex :
    resBody (extractHandler [] (.ok JsonVal.null) none none).1
      = some [("error".toList, .str missingTextChars)] ∧
    hasKey [("error".toList, .str missingTextChars)] ("ok".toList) = false :=
  ⟨rfl, rfl⟩

/-- Claim C4 (amended): every response body the endpoints send is
either the success shape (ok true plus data) or a single
human-readable error message; failure bodies carry no ok flag, success
being signalled by the HTTP status. -/
theorem response_shape :
    (∀ text llm log1 log2 bdy,
       resBody (extractHandler text llm log1 log2).1 = some bdy →
       (∃ d, bdy = [("ok".toList, .bool true), ("data".toList, d)]) ∨
       (∃ m, bdy = [("error".toList, .str m)])) ∧
    (∀ fp mt ocr llm log1 log2 bdy,
       resBody (extractFileHandler fp mt ocr llm log1 log2).1 = some bdy →
       (∃ d, bdy = [("ok".toList, .bool true), ("data".toList, d)]) ∨
       (∃ m, bdy = [("error".toList, .str m)])) := by
  constructor
  · intro text llm log1 log2 bdy hb
    cases hr : (extractHandler text llm log1 log2).1 with
    | okJson d =>
        rw [hr] at hb
        exact Or.inl ⟨d, (Option.some.inj hb).symm⟩
    | badRequest m =>
        rw [hr] at hb
        exact Or.inr ⟨m, (Option.some.inj hb).symm⟩
    | serverError m =>
        rw [hr] at hb
        exact Or.inr ⟨m, (Option.some.inj hb).symm⟩
    | noResponse =>
        rw [hr] at hb
        exact Option.noConfusion hb
  · intro fp mt ocr llm log1 log2 bdy hb
    cases hr : (extractFileHandler fp mt ocr llm log1 log2).1 with
    | okJson d =>
        rw [hr] at hb
        exact Or.inl ⟨d, (Option.some.inj hb).symm⟩
    | badRequest m =>
        rw [hr] at hb
        exact Or.inr ⟨m, (Option.some.inj hb).symm⟩
    | serverError m =>
        rw [hr] at hb
        exact Or.inr ⟨m, (Option.some.inj hb).symm⟩
    | noResponse =>
        rw [hr] at hb
        exact Option.noConfusion hb

/-- Claim C4 witness: the success response of a hotel extraction has
the ok/data shape. -/
theorem response_shape_wit :
    (∃ d, [("ok".toList, JsonVal.bool true), ("data".toList, JsonVal.obj c2hotelObj)]
        = [("ok".toList, JsonVal.bool true), ("data".toList, d)]) ∨
    (∃ m, [("ok".toList, JsonVal.bool true), ("data".toList, JsonVal.obj c2hotelObj)]
        = [("error".toList, JsonVal.str m)]) :=
  response_shape.1 c2text (.ok (.obj c2hotelObj)) none none
    [("ok".toList, .bool true), ("data".toList, .obj c2hotelObj)] rfl

-- ===================================================================
-- Claim C8: response decoder
-- ===================================================================

theorem drop_head? (t : List Char) (k : Nat) : (t.drop k).head? = t[k]? := by
  induction t generalizing k with
  | nil => simp
  | cons c rest ih =>
      cases k with
      | zero => simp
      | succ k =>
          rw [List.drop_succ_cons, List.getElem?_cons_succ]
          exact ih k

theorem take_one_eq_iff {l : List Char} {c : Char} :
    l.take 1 = [c] ↔ l.head? = some c := by
  cases l with
  | nil => simp
  | cons x xs => simp [List.take]

theorem occursAt_single {t : List Char} {c : Char} {k : Nat} :
    occursAt t [c] k = true ↔ t[k]? = some c := by
  unfold occursAt
  rw [decide_eq_true_eq]
  show (t.drop k).take 1 = [c] ↔ _
  rw [take_one_eq_iff, drop_head?]

theorem braceSum_cons (c : Char) (l : List Char) :
    braceSum (c :: l) = braceDelta c + braceSum l := by
  simp [braceSum]

theorem braceScan_reaches {l : List Char} :
    ∀ {d : Int} {i m : Nat},
      1 ≤ m → m ≤ l.length → d + braceSum (l.take m) = 0 →
      (∀ m2, 1 ≤ m2 → m2 < m → d + braceSum (l.take m2) ≠ 0) →
      braceScan l d i = some (i + m - 1) := by
  induction l with
  | nil =>
      intro d i m h1 h2 _ _
      simp at h2
      omega
  | cons c rest ih =>
      intro d i m h1 h2 h3 h4
      simp only [braceScan]
      by_cases hm : m = 1
      · subst hm
        have hsum1 : braceSum ((c :: rest).take 1) = braceDelta c := by
          simp [braceSum]
        rw [hsum1] at h3
        rw [if_pos h3]
        simp
      · have hm2 : 2 ≤ m := by omega
        have hne : ¬ d + braceDelta c = 0 := by
          have h5 := h4 1 (by omega) (by omega)
          have hsum1 : braceSum ((c :: rest).take 1) = braceDelta c := by
            simp [braceSum]
          rw [hsum1] at h5
          exact h5
        rw [if_neg hne]
        obtain ⟨m', rfl⟩ : ∃ m', m = m' + 1 := ⟨m - 1, by omega⟩
        have htake : ∀ n, (c :: rest).take (n + 1) = c :: rest.take n := by
          intro n; rfl
        have h3' : (d + braceDelta c) + braceSum (rest.take m') = 0 := by
          rw [htake m', braceSum_cons] at h3
          omega
        have h4' : ∀ m2, 1 ≤ m2 → m2 < m' → (d + braceDelta c) + braceSum (rest.take m2) ≠ 0 := by
          intro m2 hm21 hm22
          have h6 := h4 (m2 + 1) (by omega) (by omega)
          rw [htake m2, braceSum_cons] at h6
          omega
        have hres := ih (d := d + braceDelta c) (i := i + 1) (m := m')
          (by omega) (by simpa using h2) h3' h4'
        rw [hres]
        congr 1
        omega

/-- Claim C8: the decoder strips fencing and tries a direct parse
first; on failure it extracts the substring from the first opening
brace to the point where the nesting depth returns to zero — for a
response whose embedded object has balanced braces (none hidden in
string literals), that substring is exactly the embedded object — and
parses it; a missing balanced object or a second parse failure is a
DecodeError. -/
theorem decoder_extracts_balanced_object (parse : List Char → Option JsonVal)
    (raw pre obj post : List Char)
    (hsplit : stripCodeFences raw = pre ++ obj ++ post)
    (hpre : lbrace ∉ pre)
    (hhead : obj.head? = some lbrace)
    (hbal : BraceBalanced obj) :
    extractFirstJSONObject raw = some obj ∧
    decodeModelOutput parse raw =
      (match parse (stripCodeFences raw) with
       | some v => .ok v
       | none =>
           match parse obj with
           | some v => .ok v
           | none => .error (.parseFailed obj)) ∧
    (∀ raw2, parse (stripCodeFences raw2) = none → extractFirstJSONObject raw2 = none →
        decodeModelOutput parse raw2 = .error (.noObject raw2)) := by
  obtain ⟨hne, hsum, hmin⟩ := hbal
  have hlen : 1 ≤ obj.length := by
    cases obj with
    | nil => exact absurd rfl hne
    | cons c r => simp
  have hidx : indexOfFrom (stripCodeFences raw) [lbrace] 0 = some pre.length := by
    apply indexOfFrom_eq_some (by simp) (Nat.zero_le _)
    · apply occursAt_single.mpr
      rw [hsplit, List.append_assoc, List.getElem?_append_right (Nat.le_refl _)]
      simp only [Nat.sub_self]
      rw [← drop_head?]
      simp only [List.drop_zero]
      cases obj with
      | nil => exact absurd rfl hne
      | cons c r =>
          have hc : c = lbrace := by injection hhead
          subst hc
          rfl
    · intro k _ hklt
      cases hocc : occursAt (stripCodeFences raw) [lbrace] k with
      | false => rfl
      | true =>
          exfalso
          have h2 := occursAt_single.mp hocc
          rw [hsplit, List.append_assoc, List.getElem?_append_left hklt] at h2
          exact hpre (List.getElem?_mem h2)
  have hdrop : (stripCodeFences raw).drop pre.length = obj ++ post := by
    rw [hsplit, List.append_assoc, List.drop_left]
  have hscan : braceScan ((stripCodeFences raw).drop pre.length) 0 pre.length
      = some (pre.length + obj.length - 1) := by
    rw [hdrop]
    have htk : (obj ++ post).take obj.length = obj := List.take_left obj post
    apply braceScan_reaches hlen (by simp)
    · rw [htk]
      omega
    · intro m2 hm21 hm22
      rw [show (obj ++ post).take m2 = obj.take m2 from
            List.take_eq_left_iff.mpr (Or.inr (by omega))]
      have := hmin m2 (by omega) (by omega)
      omega
  have hextract : extractFirstJSONObject raw = some obj := by
    unfold extractFirstJSONObject
    simp only [hidx, hscan]
    have harith : pre.length + obj.length - 1 + 1 = pre.length + obj.length := by omega
    rw [harith, hsplit]
    rw [List.take_left' (by simp), List.drop_left]
  refine ⟨hextract, ?_, ?_⟩
  · cases hp : parse (stripCodeFences raw) with
    | some v => simp [decodeModelOutput, hp]
    | none => simp [decodeModelOutput, hp, hextract]
  · intro raw2 h1 h2
    simp [decodeModelOutput, h1, h2]

/-- Claim C8 witness: a fenced json object surrounded by prose is
extracted exactly, and the decoder returns the object parsed from it
when the direct parse of the prose-bearing response fails. -/
theorem decoder_extracts_balanced_object_wit :
    extractFirstJSONObject c8raw = some c8obj ∧
    decodeModelOutput c8parse c8raw = .ok c8val := by
  have h := decoder_extracts_balanced_object c8parse c8raw c8pre c8obj c8post
    (by decide) (by decide) (by decide) ⟨by decide, by decide, by decide⟩
  refine ⟨h.1, ?_⟩
  rw [h.2.1]
  rfl

-- ===================================================================
-- Claim C9: name cleanup
-- ===================================================================

theorem lowerAscii_head_ne {c : Char} (hp : isPunctChar c = true) (d : Char)
    (hd : 97 ≤ d.toNat ∧ d.toNat ≤ 122) : lowerAscii c ≠ d := by
  intro he
  unfold isPunctChar at hp
  rw [decide_eq_true_eq] at hp
  unfold lowerAscii at he
  rw [if_neg (by omega)] at he
  subst he
  omega

theorem tokenAt_false_of_punct {c d : Char} {rest tok : List Char}
    (hp : isPunctChar c = true) (hhead : tok.head? = some d)
    (hd : 97 ≤ d.toNat ∧ d.toNat ≤ 122) :
    tokenAt tok (c :: rest) = false := by
  cases htok : tokenAt tok (c :: rest) with
  | false => rfl
  | true =>
      exfalso
      unfold tokenAt at htok
      rw [Bool.and_eq_true] at htok
      have h1 := of_decide_eq_true htok.1
      cases tok with
      | nil => exact Option.noConfusion hhead
      | cons d2 dtail =>
          have hd2 : d2 = d := by injection hhead
          rw [List.length_cons, List.take_succ_cons, List.map_cons] at h1
          have h2 : lowerAscii c = d2 := by
            injection h1 with h2a h2b
          exact lowerAscii_head_ne hp d hd (hd2 ▸ h2)

theorem tryHonorific_none_of_punct {c : Char} {rest : List Char}
    (hp : isPunctChar c = true) : tryHonorific (c :: rest) = none := by
  unfold tryHonorific
  have hfind : honorifics.find? (fun tok => tokenAt tok (c :: rest)) = none := by
    rw [List.find?_eq_none]
    intro tok htok
    simp only [honorifics, List.mem_cons, List.not_mem_nil, or_false] at htok
    intro hcontra
    rcases htok with rfl | rfl | rfl | rfl | rfl | rfl
    · rw [@tokenAt_false_of_punct c (Char.ofNat 109) rest ("mr".toList) hp (by decide) (by decide)] at hcontra
      exact Bool.noConfusion hcontra
    · rw [@tokenAt_false_of_punct c (Char.ofNat 109) rest ("mrs".toList) hp (by decide) (by decide)] at hcontra
      exact Bool.noConfusion hcontra
    · rw [@tokenAt_false_of_punct c (Char.ofNat 109) rest ("ms".toList) hp (by decide) (by decide)] at hcontra
      exact Bool.noConfusion hcontra
    · rw [@tokenAt_false_of_punct c (Char.ofNat 109) rest ("miss".toList) hp (by decide) (by decide)] at hcontra
      exact Bool.noConfusion hcontra
    · rw [@tokenAt_false_of_punct c (Char.ofNat 100) rest ("dr".toList) hp (by decide) (by decide)] at hcontra
      exact Bool.noConfusion hcontra
    · rw [@tokenAt_false_of_punct c (Char.ofNat 112) rest ("prof".toList) hp (by decide) (by decide)] at hcontra
      exact Bool.noConfusion hcontra
  rw [hfind]

theorem stripHonLoop_id : ∀ (fuel : Nat) (prev : Option Char) (s : List Char),
    (∀ c ∈ s, isPunctChar c = true) → stripHonLoop fuel prev s = s := by
  intro fuel
  induction fuel with
  | zero =>
      intro prev s _
      cases s with
      | nil => rfl
      | cons c rest => rfl
  | succ fuel ih =>
      intro prev s h
      cases s with
      | nil => rfl
      | cons c rest =>
          have htry : tryHonorific (c :: rest) = none :=
            tryHonorific_none_of_punct (h c (by simp))
          simp only [stripHonLoop, htry, ite_self]
          exact congrArg (List.cons c)
            (ih (some c) rest (fun c2 h2 => h c2 (by simp [h2])))

theorem isNameKept_false_of_punct {c : Char} (hp : isPunctChar c = true) :
    isNameKept c = false := by
  unfold isPunctChar at hp
  rw [decide_eq_true_eq] at hp
  obtain ⟨h1, h2, h3, h4, h5, h6, h7⟩ := hp
  unfold isNameKept
  simp [h5, h6, h7]
  omega

theorem collapseWs_all_ws {l : List Char} (h : ∀ c ∈ l, isJsWs c = true)
    (hne : l ≠ []) : collapseWs l = [spaceChar] := by
  induction l with
  | nil => exact absurd rfl hne
  | cons c1 rest ih =>
      cases rest with
      | nil => simp [collapseWs, h c1 (by simp)]
      | cons c2 rest2 =>
          have h1 := h c1 (by simp)
          have h2 := h c2 (by simp)
          simp only [collapseWs]
          rw [if_pos ⟨h1, h2⟩]
          exact ih (fun c hc => h c (by simp at hc; simp [hc])) (by simp)

/-- Claim C9, counterexample: the input consisting of a single hyphen —
a punctuation character (not a letter, digit or whitespace) — is kept
by the filter and cleanNameAllCaps returns it unchanged instead of
null. -/
theorem hyphen_input_not_null_cex :
    cleanNameAllCaps (some (.str [hyphenChar])) = some [hyphenChar] ∧
    cleanNameAllCaps (some (.str [hyphenChar])) ≠ none ∧
    isWordChar hyphenChar = false ∧ isJsWs hyphenChar = false := by
  refine ⟨rfl, ?_, by decide, by decide⟩
  intro hcon
  rw [show cleanNameAllCaps (some (.str [hyphenChar])) = some [hyphenChar] from rfl] at hcon
  exact Option.noConfusion hcon

/-- Claim C9 (amended): cleanNameAllCaps strips honorifics, keeps only
letters (including the Latin-1 accented range), whitespace, hyphens and
apostrophes, collapses whitespace, upper-cases, and yields null for an
emptied result: "MR. JOHN A. SMITH" maps to "JOHN A SMITH"; an
all-punctuation input containing no hyphen or apostrophe maps to null;
a non-string value maps to null.  (An input consisting only of hyphens
or apostrophes is kept, not nulled.) -/
theorem name_cleanup_spec :
    cleanNameAllCaps (some (.str "MR. JOHN A. SMITH".toList))
        = some ("JOHN A SMITH".toList) ∧
    (∀ s : List Char, s ≠ [] → (∀ c ∈ s, isPunctChar c = true) →
        cleanNameAllCaps (some (.str s)) = none) ∧
    (∀ v : Option JsonVal, (∀ s, v ≠ some (.str s)) → cleanNameAllCaps v = none) := by
  refine ⟨rfl, ?_, ?_⟩
  · intro s hne h
    have hstrip : stripHonorifics s = s := stripHonLoop_id s.length none s h
    have hfilter : filterNameChars s = s.map (fun _ => spaceChar) := by
      unfold filterNameChars
      exact List.map_congr_left
        (fun c hc => by rw [isNameKept_false_of_punct (h c hc)]; rfl)
    have hallws : ∀ c ∈ s.map (fun _ => spaceChar), isJsWs c = true := by
      intro c hc
      simp only [List.mem_map] at hc
      obtain ⟨_, _, hc2⟩ := hc
      subst hc2
      decide
    have hmapne : s.map (fun _ => spaceChar) ≠ [] := by simp [hne]
    simp only [cleanNameAllCaps]
    rw [if_neg hne, hstrip, hfilter, collapseWs_all_ws hallws hmapne]
    rfl
  · intro v hv
    cases v with
    | none => rfl
    | some x =>
        cases x with
        | str s => exact absurd rfl (hv s)
        | null => rfl
        | bool b => rfl
        | num n => rfl
        | arr xs => rfl
        | obj o => rfl

/-- Claim C9 witness: the exclamation-only input is all punctuation and
cleans to null. -/
theorem name_cleanup_spec_wit :
    cleanNameAllCaps (some (.str "!!".toList)) = none :=
  name_cleanup_spec.2.1 ("!!".toList) (by decide) (by decide)
